import Mathlib

/-!
Verification of the SSVEP core: shallow embedding of the acquisition ring
buffer (`src/SSVEP/src/utils.py`), the vote stabilizer (same file), the
PSD/SNR detector (`src/SSVEP/src/detector_psd.py`), the bandpass design
stage (`src/SSVEP/src/filters.py`) and the FBCCA feature combination and
prediction of `src/SSVEP/ssvep_bci/modules/ssvep_classifier.py`.

Numeric values are modelled by rationals; numpy arrays by lists; Python
exceptions by `Option`-valued results (or an explicit error component where
the mutated state after a raise matters).
-/

/-- Python conversion `int(q)`: truncation toward zero. -/
def pyTrunc (q : ℚ) : ℤ := if 0 ≤ q then ⌊q⌋ else ⌈q⌉

/-- Numpy slice assignment `row[s:s+len(xs)] = xs` on one channel row
(used only where `s + len(xs) ≤ len(row)`, as in the source). -/
def setSlice (row : List ℚ) (s : Nat) (xs : List ℚ) : List ℚ :=
  row.take s ++ xs ++ row.drop (s + xs.length)

/-- Numpy `shape[1]` of a rectangular channels-by-samples chunk. -/
def shape1 (chunk : List (List ℚ)) : Nat := (chunk.headD []).length

/-- State of `TimeSeriesBuffer` (utils.py): a `n_channels × buffer_size`
array, the write cursor and the full flag. -/
structure TSBuffer where
  n_channels : Nat
  sampling_rate : ℚ
  buffer_size : Nat
  data : List (List ℚ)
  write_idx : Nat
  is_full : Bool
deriving Repr, DecidableEq

/-- Constructor `TimeSeriesBuffer.__init__`: `buffer_size =
int(buffer_duration * sampling_rate)`, zero-filled data, cursor 0, not full. -/
def TSBuffer.init (n_channels : Nat) (buffer_duration sampling_rate : ℚ) : TSBuffer :=
  let size := (pyTrunc (buffer_duration * sampling_rate)).toNat
  ⟨n_channels, sampling_rate, size, List.replicate n_channels (List.replicate size 0), 0, false⟩

/-- Method `TimeSeriesBuffer.add_samples`.  Returns the raised error message
(if any) together with the buffer state after the call, mirroring the order
of operations in the source: the channel-count check raises before any
mutation; on wraparound the pre-wrap slice is written first, then the
post-wrap assignment `data[:, :n_after] = samples[:, n_before:]`, which in
numpy raises a broadcast `ValueError` when `n_after` exceeds the buffer size
(leaving the pre-wrap write in place and `write_idx`/`is_full` untouched);
`is_full` is set only in the wraparound branch, and finally
`write_idx = (write_idx + n) % buffer_size`. -/
def TSBuffer.addSamples (b : TSBuffer) (samples : List (List ℚ)) :
    Option String × TSBuffer :=
  if samples.length ≠ b.n_channels then
    (some "ValueError: channel count mismatch", b)
  else
    let n := shape1 samples
    if b.write_idx + n ≤ b.buffer_size then
      let data1 := List.zipWith (fun row ch => setSlice row b.write_idx ch) b.data samples
      (none, { b with data := data1, write_idx := (b.write_idx + n) % b.buffer_size })
    else
      let nBefore := b.buffer_size - b.write_idx
      let nAfter := n - nBefore
      let data1 := List.zipWith (fun row ch => setSlice row b.write_idx (ch.take nBefore))
        b.data samples
      if b.buffer_size < nAfter then
        (some "ValueError: could not broadcast", { b with data := data1 })
      else
        let data2 := List.zipWith (fun row ch => setSlice row 0 (ch.drop nBefore)) data1 samples
        (none, { b with
            data := data2
            is_full := true
            write_idx := (b.write_idx + n) % b.buffer_size })

/-- Method `TimeSeriesBuffer.get_latest_samples`: `None` when fewer than `n`
samples are available (`buffer_size` if full, else `write_idx`), otherwise a
fresh `channels × n` array read from `start_idx`, reassembled across the
wrap boundary.  `(write_idx - n) % buffer_size` is Python modulo on a
possibly negative numerator, here `(buffer_size + write_idx - n) %
buffer_size` since `n ≤ buffer_size` in that branch. -/
def TSBuffer.getLatestSamples (b : TSBuffer) (n : Nat) : Option (List (List ℚ)) :=
  let available := if b.is_full then b.buffer_size else b.write_idx
  if available < n then none
  else
    let start := if b.is_full then (b.buffer_size + b.write_idx - n) % b.buffer_size
                 else b.write_idx - n
    if start + n ≤ b.buffer_size then
      some (b.data.map (fun row => (row.drop start).take n))
    else
      let nBefore := b.buffer_size - start
      some (b.data.map (fun row => row.drop start ++ row.take (n - nBefore)))

/-- Method `TimeSeriesBuffer.get_latest_duration`: `n_samples =
int(duration * sampling_rate)`, then `get_latest_samples(n_samples)`.
Faithful for `duration * sampling_rate ≥ 0` (the claims restrict to
non-negative durations; Python would hand a negative `n` on). -/
def TSBuffer.getLatestDuration (b : TSBuffer) (duration : ℚ) : Option (List (List ℚ)) :=
  b.getLatestSamples (pyTrunc (duration * b.sampling_rate)).toNat

/-- State of `StableVoteFilter` (utils.py).  Votes are `Option α` because
the tracked vote starts as Python `None` and is compared with `!=`. -/
structure StableVoteFilter (α : Type) where
  hold_duration_ms : ℚ
  current_vote : Option α
  vote_start_time : Option ℚ
  stable_decision : Option α
deriving DecidableEq

/-- Constructor `StableVoteFilter.__init__`. -/
def StableVoteFilter.init (α : Type) (hold_duration_ms : ℚ) : StableVoteFilter α :=
  ⟨hold_duration_ms, none, none, none⟩

/-- Method `StableVoteFilter.update`, with the current wall-clock time in
milliseconds passed explicitly.  A differing vote resets the tracker and
returns `None`; an identical vote held for at least `hold_duration_ms`
updates `stable_decision` (a no-op when already equal, as in the source)
and returns the vote; otherwise `None` with the state unchanged. -/
def StableVoteFilter.update {α : Type} [DecidableEq α] (s : StableVoteFilter α)
    (current_time : ℚ) (new_vote : Option α) : Option α × StableVoteFilter α :=
  if new_vote ≠ s.current_vote then
    (none, { s with current_vote := new_vote, vote_start_time := some current_time })
  else
    match s.vote_start_time with
    | some t0 =>
      if s.hold_duration_ms ≤ current_time - t0 then
        (new_vote, { s with stable_decision := new_vote })
      else (none, s)
    | none => (none, s)

/-- Method `StableVoteFilter.reset`: clears tracked vote, timer and stable
decision. -/
def StableVoteFilter.reset {α : Type} (s : StableVoteFilter α) : StableVoteFilter α :=
  { s with current_vote := none, vote_start_time := none, stable_decision := none }

/-- Configuration of `PSDDetector` relevant to `calculate_snr`:
`snr_neighbor_bw` (default 1.0 Hz) and `snr_exclude_bw` (default 0.3 Hz). -/
structure SnrConfig where
  snr_neighbor_bw : ℚ
  snr_exclude_bw : ℚ
deriving Repr, DecidableEq

/-- Constructor defaults of `PSDDetector.__init__`. -/
def defaultSnrConfig : SnrConfig := ⟨1, 3 / 10⟩

/-- Numpy `np.argmin(np.abs(freqs - t))` together with the attained minimal
distance: first index of a minimal `|freqs[i] - t|`, `none` on an empty
array (where numpy raises). -/
def argminAbsVal (t : ℚ) : List ℚ → Option (Nat × ℚ)
  | [] => none
  | x :: xs =>
    match argminAbsVal t xs with
    | none => some (0, |x - t|)
    | some (j, v) => if |x - t| ≤ v then some (0, |x - t|) else some (j + 1, v)

/-- Python list slice `l[a:b]` with full Python index semantics (negative
indices count from the end, out-of-range indices clamp; never raises). -/
def pySlice (l : List ℚ) (a b : ℤ) : List ℚ :=
  let norm : ℤ → Nat := fun i => if i < 0 then ((l.length : ℤ) + i).toNat else min i.toNat l.length
  (l.take (norm b)).drop (norm a)

/-- Method `PSDDetector.calculate_snr` over a PSD grid `(freqs, psd)`.
Returns `none` exactly where the Python raises: `np.argmin` on an empty
`freqs`; `psd[target_idx]` out of range; `freqs[1]` on a length-1 array; and
`int(np.ceil(bw / 0.0))` (infinite or NaN cannot be converted to int).
Otherwise: signal power at the nearest bin, noise band of `neighbor_bins`
bins on each side of the peak excluding `exclude_bins` guard bins, SNR
`signal/mean(noise)` with 0 for an empty band or non-positive mean. -/
def calculate_snr (cfg : SnrConfig) (freqs psd : List ℚ) (target_freq : ℚ) : Option ℚ :=
  match argminAbsVal target_freq freqs with
  | none => none
  | some (target_idx, _) =>
    match psd.get? target_idx with
    | none => none
    | some signal_power =>
      if freqs.length < 2 then none
      else
        let freq_resolution := freqs.getD 1 0 - freqs.getD 0 0
        if freq_resolution = 0 then none
        else
          let exclude_bins : ℤ := ⌈cfg.snr_exclude_bw / freq_resolution⌉
          let neighbor_bins : ℤ := ⌈cfg.snr_neighbor_bw / freq_resolution⌉
          let left_start : ℤ := max 0 ((target_idx : ℤ) - neighbor_bins - exclude_bins)
          let left_end : ℤ := max 0 ((target_idx : ℤ) - exclude_bins)
          let right_start : ℤ := min (psd.length : ℤ) ((target_idx : ℤ) + exclude_bins + 1)
          let right_end : ℤ :=
            min (psd.length : ℤ) ((target_idx : ℤ) + neighbor_bins + exclude_bins + 1)
          let noise_samples :=
            (if left_start < left_end then pySlice psd left_start left_end else []) ++
              (if right_start < right_end then pySlice psd right_start right_end else [])
          if noise_samples = [] then some 0
          else
            let noise_power := noise_samples.sum / noise_samples.length
            if 0 < noise_power then some (signal_power / noise_power) else some 0

/-- Per-target score loop of `PSDDetector.detect` (lines 137-154): the SNR of
the fundamental, plus `0.5 ×` the independently computed SNR at `2f` when
`harmonics ≥ 2`, plus `0.25 ×` the SNR at `3f` when `harmonics ≥ 3`. -/
def harmonicScore (cfg : SnrConfig) (harmonics : Nat) (freqs psd : List ℚ) (f : ℚ) :
    Option ℚ := do
  let snr_fundamental ← calculate_snr cfg freqs psd f
  let total1 ←
    if 2 ≤ harmonics then
      (calculate_snr cfg freqs psd (2 * f)).map (fun s => snr_fundamental + 1 / 2 * s)
    else pure snr_fundamental
  if 3 ≤ harmonics then
    (calculate_snr cfg freqs psd (3 * f)).map (fun s => total1 + 1 / 4 * s)
  else pure total1

/-- Iteration of the `for target_freq in self.target_freqs` loop of
`PSDDetector.detect`: build the score entries in order, propagating a raise
from any iteration. -/
def detectScoresAux (cfg : SnrConfig) (harmonics : Nat) (freqs psd : List ℚ) :
    List ℚ → Option (List (ℚ × ℚ))
  | [] => some []
  | f :: fs =>
    match harmonicScore cfg harmonics freqs psd f,
        detectScoresAux cfg harmonics freqs psd fs with
    | some s, some rest => some ((f, s) :: rest)
    | _, _ => none

/-- Score map of `PSDDetector.detect` over the target list (which the
constructor sorts ascending: `self.target_freqs = sorted(target_freqs)`),
as an association list in iteration order. -/
def detectScores (cfg : SnrConfig) (harmonics : Nat) (target_freqs freqs psd : List ℚ) :
    Option (List (ℚ × ℚ)) :=
  detectScoresAux cfg harmonics freqs psd (target_freqs.insertionSort (· ≤ ·))

/-- Python `max(l)` on a list of rationals (0 for the empty list, where
Python raises; callers guard emptiness). -/
def pyMax : List ℚ → ℚ
  | [] => 0
  | x :: xs => xs.foldl max x

/-- Python `sorted(values, reverse=True)`: the values in non-increasing
order. -/
def sortDescending (l : List ℚ) : List ℚ := l.insertionSort (fun a b => b ≤ a)

instance : IsTotal ℚ (fun a b => b ≤ a) := ⟨fun a b => le_total b a⟩

instance : IsTrans ℚ (fun a b => b ≤ a) := ⟨fun _ _ _ h1 h2 => le_trans h2 h1⟩

/-- Numpy `np.clip(x, 0.0, 1.0)`. -/
def clip01 (x : ℚ) : ℚ := min 1 (max 0 x)

/-- Confidence computation of `PSDDetector.detect` (lines 156-172) as a
function of the per-target scores: `best_snr` is the score of the
argmax-by-score target, hence the maximum value; if at least two scores
exist and the second-largest is positive, `1 - second/best`; otherwise 1
when `best > 1.5` else `best / 1.5`; the result is clipped to `[0, 1]`. -/
def detectConfidence (scores : List ℚ) : ℚ :=
  let best_snr := pyMax scores
  let sorted_scores := sortDescending scores
  let confidence :=
    if 1 < sorted_scores.length ∧ 0 < sorted_scores.getD 1 0 then
      1 - sorted_scores.getD 1 0 / sorted_scores.getD 0 0
    else if 3 / 2 < best_snr then 1 else best_snr / (3 / 2)
  clip01 confidence

/-- Modelled from the spec: the signal power the claim describes for a
target `f` - the PSD value at the bin nearest `f`, plus `0.5 ×` the PSD at
the bin nearest `2f` when `harmonics ≥ 2` and `0.25 ×` the PSD at the bin
nearest `3f` when `harmonics ≥ 3` (all harmonics added to one signal
power). -/
def specSignalPower (harmonics : Nat) (freqs psd : List ℚ) (f : ℚ) : ℚ :=
  let at_ : ℚ → ℚ := fun g =>
    match argminAbsVal g freqs with
    | some (j, _) => psd.getD j 0
    | none => 0
  at_ f + (if 2 ≤ harmonics then 1 / 2 * at_ (2 * f) else 0) +
    (if 3 ≤ harmonics then 1 / 4 * at_ (3 * f) else 0)

/-- Modelled from the spec: the noise power of the claim for target `f` - the
mean PSD over the neighbor band around `f` (excluding the guard band
immediately around the peak), using the same band construction as the
code. -/
def specNoisePower (cfg : SnrConfig) (freqs psd : List ℚ) (f : ℚ) : ℚ :=
  match argminAbsVal f freqs with
  | none => 0
  | some (target_idx, _) =>
    let freq_resolution := freqs.getD 1 0 - freqs.getD 0 0
    if freq_resolution = 0 then 0
    else
      let exclude_bins : ℤ := ⌈cfg.snr_exclude_bw / freq_resolution⌉
      let neighbor_bins : ℤ := ⌈cfg.snr_neighbor_bw / freq_resolution⌉
      let left_start : ℤ := max 0 ((target_idx : ℤ) - neighbor_bins - exclude_bins)
      let left_end : ℤ := max 0 ((target_idx : ℤ) - exclude_bins)
      let right_start : ℤ := min (psd.length : ℤ) ((target_idx : ℤ) + exclude_bins + 1)
      let right_end : ℤ :=
        min (psd.length : ℤ) ((target_idx : ℤ) + neighbor_bins + exclude_bins + 1)
      let noise_samples :=
        (if left_start < left_end then pySlice psd left_start left_end else []) ++
          (if right_start < right_end then pySlice psd right_start right_end else [])
      if noise_samples = [] then 0 else noise_samples.sum / noise_samples.length

/-- Modelled from the spec: the score formula of the claim
`signal_power / max(noise_power, ε)`. -/
def specScoreC2 (cfg : SnrConfig) (harmonics : Nat) (freqs psd : List ℚ) (f ε : ℚ) : ℚ :=
  specSignalPower harmonics freqs psd f / max (specNoisePower cfg freqs psd f) ε

/-- Method `SSVEPFilters._design_bandpass` together with the validity check
of `scipy.signal.butter` it calls: cutoffs are normalized by the Nyquist
frequency; when `low ≤ 0` or `high ≥ 1` a warning is logged and
`low = max(0.01, low)`, `high = min(0.99, high)`; `butter` then raises
unless both normalized frequencies lie strictly inside `(0, 1)` (it does not
check their order).  `some` carries the `Wn` pair handed to `butter`;
`none` is the raised `ValueError`.  Faithful for `fs ≠ 0` (at `fs = 0`
Python raises a division error instead). -/
def design_bandpass (fs lowcut highcut : ℚ) : Option (ℚ × ℚ) :=
  let nyquist := fs / 2
  let low := lowcut / nyquist
  let high := highcut / nyquist
  let clamped :=
    if low ≤ 0 ∨ 1 ≤ high then (max (1 / 100) low, min (99 / 100) high) else (low, high)
  if 0 < clamped.1 ∧ clamped.1 < 1 ∧ 0 < clamped.2 ∧ clamped.2 < 1 then some clamped
  else none

/-- Sub-band combination loop of `SSVEPClassifier._fbcca_features` for one
target frequency: starting from `0.0`, accumulate
`(n_filters - fb_idx) / n_filters ×` the sub-band CCA score over
`fb_idx = 0 .. n_filters - 1`.  The per-sub-band CCA scores (CCA on the
`sosfiltfilt`-filtered window, `_cca_features`) are abstracted as the
function argument `cca`. -/
def fbccaCombine (n_filters : Nat) (cca : Nat → ℚ → ℚ) (f : ℚ) : ℚ :=
  (List.range n_filters).foldl
    (fun (acc : ℚ) (fb_idx : Nat) =>
      acc + ((n_filters : ℚ) - (fb_idx : ℚ)) / (n_filters : ℚ) * cca fb_idx f) 0

/-- Method `SSVEPClassifier._fbcca_features` with the filter bank enabled,
as a function of the per-sub-band CCA scores: the weighted per-frequency
accumulation, then `max_val = max(features.values())` and division of every
feature by `max_val` - but only when `max_val > 0`.  Faithful for a
duplicate-free frequency list (Python dict keys). -/
def fbccaFeatures (frequencies : List ℚ) (n_filters : Nat) (cca : Nat → ℚ → ℚ) :
    List (ℚ × ℚ) :=
  let features := frequencies.map fun f => (f, fbccaCombine n_filters cca f)
  let max_val := if features = [] then 1 else pyMax (features.map Prod.snd)
  if 0 < max_val then features.map (fun p => (p.1, p.2 / max_val)) else features

/-- Method `SSVEPClassifier.predict` as a function of the extracted feature
map (an association list in the dict iteration order): scan for the largest
score strictly exceeding the running maximum initialized to `0.0`; if no
score exceeds 0 the predicted frequency stays `None` and the target index
defaults to 0; the confidence is the final running maximum. -/
def predictFrom (frequencies : List ℚ) (features : List (ℚ × ℚ)) : Nat × ℚ :=
  let best := features.foldl
    (fun acc p => if acc.1 < p.2 then (p.2, some p.1) else acc) ((0 : ℚ), (none : Option ℚ))
  let target_idx :=
    match best.2 with
    | some f => if f ∈ frequencies then frequencies.indexOf f else 0
    | none => 0
  (target_idx, best.1)

/-- Concrete Welch-style frequency grid for the C2 analysis: 1 Hz
resolution, bins 0..25 Hz. -/
def c2freqs : List ℚ := (List.range 26).map (fun n => (n : ℚ))

/-- Concrete PSD on `c2freqs`: peak 1 at 10 Hz with neighbor band mean 2
(bins 8 and 12), peak 1 at the 20 Hz harmonic with neighbor band mean 1
(bins 18 and 22). -/
def c2psd : List ℚ :=
  [0, 0, 0, 0, 0, 0, 0, 0, 2, 0, 1, 0, 2, 0, 0, 0, 0, 0, 1, 0, 1, 0, 1, 0, 0, 0]

/-! Helper lemmas. -/

lemma pyTrunc_eq_floor {q : ℚ} (hq : 0 ≤ q) : pyTrunc q = ⌊q⌋ := if_pos hq

lemma foldl_step_zero (fs : List (ℚ × ℚ)) (h : ∀ p ∈ fs, p.2 ≤ 0) :
    fs.foldl (fun acc p => if acc.1 < p.2 then (p.2, some p.1) else acc)
      ((0 : ℚ), (none : Option ℚ)) = (0, none) := by
  induction fs with
  | nil => rfl
  | cons p ps ih =>
    rw [List.foldl_cons, if_neg, ih]
    · exact fun q hq => h q (List.mem_cons_of_mem _ hq)
    · exact not_lt.mpr (h p (List.mem_cons_self _ _))

/-- Claim C1 (code_bug evaluation).  A chunk that exactly fills the
capacity-4 buffer never enters the wraparound branch, so `is_full` stays
false and `write_idx` wraps to 0; after one further sample, 5 samples have
been written and the literal last 4 of them sit in the buffer as
`[5 | 2, 3, 4]` with the cursor at 1, yet `get_latest_samples(4)` reports
not-ready (`None`), contradicting the buffer-correctness invariant the
claim states. -/
theorem C1_exact_fill_returns_none :
    ((((TSBuffer.init 1 4 1).addSamples [[1, 2, 3, 4]]).2.addSamples [[5]]).2.getLatestSamples 4
      = none)
    ∧ (((TSBuffer.init 1 4 1).addSamples [[1, 2, 3, 4]]).2.addSamples [[5]]).2.data
      = [[5, 2, 3, 4]]
    ∧ ((TSBuffer.init 1 4 1).addSamples [[1, 2, 3, 4]]).1 = none
    ∧ (((TSBuffer.init 1 4 1).addSamples [[1, 2, 3, 4]]).2.addSamples [[5]]).1 = none := by
  with_unfolding_all decide

/-- Claim C5 (counterexample).  With sampling rate 29 Hz and 2 samples
stored, `get_latest_duration(0.1)` truncates `2.9` to 2 samples and
succeeds, while the claimed `round(seconds × sampling_rate) = 3` samples
are not yet available, so the two sides differ. -/
theorem C5_counterexample :
    ((TSBuffer.init 1 1 29).addSamples [[7, 8]]).2.getLatestDuration (1 / 10)
      ≠ ((TSBuffer.init 1 1 29).addSamples [[7, 8]]).2.getLatestSamples
          (round ((1 / 10 : ℚ) *
            ((TSBuffer.init 1 1 29).addSamples [[7, 8]]).2.sampling_rate)).toNat := by
  with_unfolding_all decide

/-- Claim C5 (amended).  For every non-negative duration (and non-negative
sampling rate), `get_latest_duration(seconds)` requests
`⌊seconds × sampling_rate⌋` samples - Python `int()` truncation, not
rounding - and returns the same result as `get_latest_samples` on that
count. -/
theorem C5_duration_truncates (b : TSBuffer) (duration : ℚ)
    (hd : 0 ≤ duration) (hr : 0 ≤ b.sampling_rate) :
    b.getLatestDuration duration = b.getLatestSamples ⌊duration * b.sampling_rate⌋.toNat := by
  unfold TSBuffer.getLatestDuration
  rw [pyTrunc_eq_floor (mul_nonneg hd hr)]

/-- Witness for C5_duration_truncates at a concrete buffer and duration. -/
theorem C5_witness :
    0 ≤ (1 / 10 : ℚ)
    ∧ 0 ≤ ((TSBuffer.init 1 1 29).addSamples [[7, 8]]).2.sampling_rate
    ∧ ((TSBuffer.init 1 1 29).addSamples [[7, 8]]).2.getLatestDuration (1 / 10)
      = ((TSBuffer.init 1 1 29).addSamples [[7, 8]]).2.getLatestSamples
          ⌊(1 / 10 : ℚ) * ((TSBuffer.init 1 1 29).addSamples [[7, 8]]).2.sampling_rate⌋.toNat :=
  ⟨by norm_num, by with_unfolding_all decide,
    C5_duration_truncates _ _ (by norm_num) (by with_unfolding_all decide)⟩

/-- Claim C6 (counterexample).  A chunk with the correct channel count but
more samples than `2 × capacity - write_idx` also raises (the numpy
broadcast of the post-wrap assignment fails), so a shape error is not
raised exactly when the channel count differs. -/
theorem C6_counterexample :
    (((TSBuffer.init 1 2 1).addSamples [[1, 2, 3, 4, 5]]).1 ≠ none)
    ∧ [[(1 : ℚ), 2, 3, 4, 5]].length = (TSBuffer.init 1 2 1).n_channels := by
  with_unfolding_all decide

/-- Claim C6 (amended).  For a buffer with `write_idx ≤ buffer_size`,
`add_samples` raises exactly when the chunk channel count differs from
`n_channels` or the chunk overruns the wraparound write
(`write_idx + n_samples > 2 × buffer_size`); in the channel-mismatch case
the check precedes all writes, so the buffer state is completely
unchanged. -/
theorem C6_error_iff (b : TSBuffer) (samples : List (List ℚ))
    (hw : b.write_idx ≤ b.buffer_size) :
    ((b.addSamples samples).1 ≠ none ↔
      samples.length ≠ b.n_channels ∨ 2 * b.buffer_size < b.write_idx + shape1 samples)
    ∧ (samples.length ≠ b.n_channels → (b.addSamples samples).2 = b) := by
  simp only [TSBuffer.addSamples]
  by_cases hch : samples.length ≠ b.n_channels
  · rw [if_pos hch]
    exact ⟨iff_of_true (fun h => Option.noConfusion h) (Or.inl hch), fun _ => rfl⟩
  · rw [if_neg hch]
    refine ⟨?_, fun h => absurd h hch⟩
    by_cases hfit : b.write_idx + shape1 samples ≤ b.buffer_size
    · rw [if_pos hfit]
      exact iff_of_false (fun h => h rfl) (by omega)
    · rw [if_neg hfit]
      by_cases hbig : b.buffer_size < shape1 samples - (b.buffer_size - b.write_idx)
      · rw [if_pos hbig]
        exact iff_of_true (fun h => Option.noConfusion h) (Or.inr (by omega))
      · rw [if_neg hbig]
        exact iff_of_false (fun h => h rfl) (by omega)

/-- Witness for C6_error_iff: a two-channel chunk into a one-channel buffer
raises and leaves the buffer untouched. -/
theorem C6_witness :
    (((TSBuffer.init 1 2 1).addSamples [[1], [2]]).1 ≠ none)
    ∧ ((TSBuffer.init 1 2 1).addSamples [[1], [2]]).2 = TSBuffer.init 1 2 1 := by
  have h := C6_error_iff (TSBuffer.init 1 2 1) [[1], [2]] (by with_unfolding_all decide)
  exact ⟨h.1.mpr (Or.inl (by with_unfolding_all decide)),
    h.2 (by with_unfolding_all decide)⟩

/-- Claim C3.  `StableVoteFilter.update`: a differing vote returns `None`,
records the vote as tracked and restarts the timer at the current time
(leaving the stable decision unchanged); an identical vote whose tracking
started at `t0` with `now - t0 ≥ hold_duration_ms` sets
`stable_decision = vote` and returns the vote; in every other case it
returns `None` and leaves the whole state (hence `stable_decision`)
unchanged. -/
theorem C3_update_spec (α : Type) [DecidableEq α] (s : StableVoteFilter α)
    (now : ℚ) (v : Option α) :
    (v ≠ s.current_vote →
      (s.update now v).1 = none
      ∧ (s.update now v).2.current_vote = v
      ∧ (s.update now v).2.vote_start_time = some now
      ∧ (s.update now v).2.stable_decision = s.stable_decision)
    ∧ (∀ t0, v = s.current_vote → s.vote_start_time = some t0 →
        s.hold_duration_ms ≤ now - t0 →
      (s.update now v).1 = v ∧ (s.update now v).2.stable_decision = v)
    ∧ (v = s.current_vote →
        (∀ t0, s.vote_start_time = some t0 → now - t0 < s.hold_duration_ms) →
      (s.update now v).1 = none ∧ (s.update now v).2 = s) := by
  unfold StableVoteFilter.update
  refine ⟨fun hne => ?_, fun t0 heq hst hhold => ?_, fun heq hlt => ?_⟩
  · rw [if_pos hne]
    exact ⟨rfl, rfl, rfl, rfl⟩
  · rw [if_neg (not_not_intro heq), hst]
    simp [hhold]
  · rw [if_neg (not_not_intro heq)]
    cases hst : s.vote_start_time with
    | none => exact ⟨rfl, rfl⟩
    | some t0 => simp [not_le.mpr (hlt t0 hst)]

/-- Witness for C3_update_spec: all three cases at concrete states of a
filter over natural-number votes with a 200 ms hold. -/
theorem C3_witness :
    (((StableVoteFilter.mk 200 (some 10) (some 0) none : StableVoteFilter ℕ).update
        250 (some 12)).1 = none
      ∧ ((StableVoteFilter.mk 200 (some 10) (some 0) none : StableVoteFilter ℕ).update
        250 (some 12)).2.vote_start_time = some 250)
    ∧ (((StableVoteFilter.mk 200 (some 10) (some 0) none : StableVoteFilter ℕ).update
        250 (some 10)).1 = some 10
      ∧ ((StableVoteFilter.mk 200 (some 10) (some 0) none : StableVoteFilter ℕ).update
        250 (some 10)).2.stable_decision = some 10)
    ∧ (((StableVoteFilter.mk 200 (some 10) (some 0) none : StableVoteFilter ℕ).update
        100 (some 10)).1 = none
      ∧ ((StableVoteFilter.mk 200 (some 10) (some 0) none : StableVoteFilter ℕ).update
        100 (some 10)).2 = StableVoteFilter.mk 200 (some 10) (some 0) none) := by
  have h1 := (C3_update_spec ℕ (StableVoteFilter.mk 200 (some 10) (some 0) none)
    250 (some 12)).1 (by simp)
  have h2 := (C3_update_spec ℕ (StableVoteFilter.mk 200 (some 10) (some 0) none)
    250 (some 10)).2.1 0 rfl rfl (by norm_num)
  have h3 := (C3_update_spec ℕ (StableVoteFilter.mk 200 (some 10) (some 0) none)
    100 (some 10)).2.2 rfl (by intro t0 ht; injection ht with ht; rw [← ht]; norm_num)
  exact ⟨⟨h1.1, h1.2.2.1⟩, h2, h3⟩

/-- Claim C10.  When no feature score is strictly positive, the scan of
`SSVEPClassifier.predict` never updates the running maximum, the predicted
frequency stays `None`, and the method returns target index 0 with
confidence 0.0 - not a distinguished no-decision value. -/
theorem C10_default_prediction (frequencies : List ℚ) (features : List (ℚ × ℚ))
    (h : ∀ p ∈ features, p.2 ≤ 0) :
    predictFrom frequencies features = (0, 0) := by
  unfold predictFrom
  rw [foldl_step_zero features h]

/-- Witness for C10_default_prediction at a concrete all-nonpositive
feature map. -/
theorem C10_witness : predictFrom [10, 15] [(10, 0), (15, -1)] = (0, 0) :=
  C10_default_prediction [10, 15] [(10, 0), (15, -1)] (by with_unfolding_all decide)

/-! Helper lemmas for the PSD detector. -/

lemma argminAbsVal_isSome (t x : ℚ) (xs : List ℚ) :
    ∃ p, argminAbsVal t (x :: xs) = some p := by
  simp only [argminAbsVal]
  cases argminAbsVal t xs with
  | none => exact ⟨_, rfl⟩
  | some p =>
    obtain ⟨j, v⟩ := p
    by_cases hle : |x - t| ≤ v
    · exact ⟨(0, |x - t|), by simp [hle]⟩
    · exact ⟨(j + 1, v), by simp [hle]⟩

lemma argminAbsVal_lt_length (t : ℚ) :
    ∀ (l : List ℚ) (j : Nat) (v : ℚ), argminAbsVal t l = some (j, v) → j < l.length := by
  intro l
  induction l with
  | nil => intro j v h; exact absurd h (by simp [argminAbsVal])
  | cons x xs ih =>
    intro j v h
    cases hx : argminAbsVal t xs with
    | none =>
      simp only [argminAbsVal, hx, Option.some.injEq, Prod.mk.injEq] at h
      obtain ⟨hj, -⟩ := h
      subst hj
      simp
    | some p =>
      obtain ⟨j2, v2⟩ := p
      by_cases hle : |x - t| ≤ v2
      · simp only [argminAbsVal, hx, if_pos hle, Option.some.injEq, Prod.mk.injEq] at h
        obtain ⟨hj, -⟩ := h
        subst hj
        simp
      · simp only [argminAbsVal, hx, if_neg hle, Option.some.injEq, Prod.mk.injEq] at h
        obtain ⟨hj, -⟩ := h
        subst hj
        simpa using Nat.succ_lt_succ (ih j2 v2 hx)

lemma calculate_snr_isSome (cfg : SnrConfig) (freqs psd : List ℚ) (target : ℚ)
    (hlen : freqs.length = psd.length) (h2 : 2 ≤ freqs.length)
    (hres : freqs.getD 0 0 < freqs.getD 1 0) :
    ∃ v, calculate_snr cfg freqs psd target = some v := by
  obtain ⟨x, xs, hfx⟩ : ∃ x xs, freqs = x :: xs := by
    cases freqs with
    | nil => simp at h2
    | cons a l => exact ⟨a, l, rfl⟩
  subst hfx
  obtain ⟨⟨j, mv⟩, hj⟩ := argminAbsVal_isSome target x xs
  have hjp : j < psd.length := hlen ▸ argminAbsVal_lt_length target _ j mv hj
  obtain ⟨sp, hsp⟩ : ∃ sp, psd.get? j = some sp :=
    ⟨psd.get ⟨j, hjp⟩, List.get?_eq_get hjp⟩
  simp only [calculate_snr, hj, hsp]
  rw [if_neg (not_lt.mpr h2)]
  rw [if_neg (sub_ne_zero.mpr (ne_of_gt hres))]
  split_ifs <;> exact ⟨_, rfl⟩

lemma harmonicScore_eq (cfg : SnrConfig) (harmonics : Nat) (freqs psd : List ℚ)
    (f s1 s2 s3 : ℚ)
    (h1 : calculate_snr cfg freqs psd f = some s1)
    (h2 : calculate_snr cfg freqs psd (2 * f) = some s2)
    (h3 : calculate_snr cfg freqs psd (3 * f) = some s3) :
    harmonicScore cfg harmonics freqs psd f
      = some (s1 + (if 2 ≤ harmonics then 1 / 2 * s2 else 0)
          + (if 3 ≤ harmonics then 1 / 4 * s3 else 0)) := by
  unfold harmonicScore
  by_cases hh2 : 2 ≤ harmonics <;> by_cases hh3 : 3 ≤ harmonics <;>
    simp [hh2, hh3, h1, h2, h3]

lemma detectScoresAux_eq_map (cfg : SnrConfig) (harmonics : Nat) (freqs psd : List ℚ)
    (g : ℚ → ℚ) :
    ∀ ts : List ℚ, (∀ f ∈ ts, harmonicScore cfg harmonics freqs psd f = some (g f)) →
      detectScoresAux cfg harmonics freqs psd ts = some (ts.map fun f => (f, g f)) := by
  intro ts
  induction ts with
  | nil => intro; rfl
  | cons f fs ih =>
    intro h
    simp only [detectScoresAux, h f (List.mem_cons_self _ _),
      ih (fun a ha => h a (List.mem_cons_of_mem _ ha)), List.map_cons]

/-- Claim C7.  On every well-formed PSD grid - matching lengths, at least
two frequency bins, an increasing frequency axis (as Welch produces) -
`calculate_snr` never raises: every guarded branch (empty neighbor band,
zero or non-positive noise power) returns a value, so per-target scores
stay finite on degenerate input. -/
theorem C7_snr_never_raises (cfg : SnrConfig) (freqs psd : List ℚ) (target : ℚ)
    (hlen : freqs.length = psd.length) (h2 : 2 ≤ freqs.length)
    (hres : freqs.getD 0 0 < freqs.getD 1 0) :
    ∃ v, calculate_snr cfg freqs psd target = some v :=
  calculate_snr_isSome cfg freqs psd target hlen h2 hres

/-- Witness for C7_snr_never_raises at a concrete 3-bin grid. -/
theorem C7_witness :
    ([0, 1, 2] : List ℚ).length = ([5, 7, 9] : List ℚ).length
    ∧ 2 ≤ ([0, 1, 2] : List ℚ).length
    ∧ ([0, 1, 2] : List ℚ).getD 0 0 < ([0, 1, 2] : List ℚ).getD 1 0
    ∧ ∃ v, calculate_snr defaultSnrConfig [0, 1, 2] [5, 7, 9] 1 = some v :=
  ⟨rfl, by decide, by with_unfolding_all decide,
    C7_snr_never_raises defaultSnrConfig [0, 1, 2] [5, 7, 9] 1 rfl (by decide)
      (by with_unfolding_all decide)⟩

/-- Claim C2 (counterexample).  On the concrete PSD `c2psd` the score computed by the code
for 10 Hz is 1: each harmonic contributes its own SNR over its own
noise band (`1/2 + 0.5 × 1/1`).  The formula of the claim pools the harmonic
PSD values into one signal power (3/2) over the noise band of the fundamental
(mean 2), giving `(3/2) / max(2, ε) ≤ 3/4 < 1` for every ε > 0, so no
epsilon makes the claimed formula match the code. -/
theorem C2_counterexample :
    ¬ ∃ ε : ℚ, 0 < ε ∧
      detectScores defaultSnrConfig 2 [10] c2freqs c2psd
        = some [(10, specScoreC2 defaultSnrConfig 2 c2freqs c2psd 10 ε)] := by
  rintro ⟨ε, hε, heq⟩
  have h1 : detectScores defaultSnrConfig 2 [10] c2freqs c2psd = some [(10, 1)] := by
    with_unfolding_all decide
  rw [h1] at heq
  have hsig : specSignalPower 2 c2freqs c2psd 10 = 3 / 2 := by with_unfolding_all decide
  have hnoise : specNoisePower defaultSnrConfig c2freqs c2psd 10 = 2 := by
    with_unfolding_all decide
  unfold specScoreC2 at heq
  rw [hsig, hnoise] at heq
  simp only [Option.some.injEq, List.cons.injEq, Prod.mk.injEq, and_true, true_and] at heq
  have hm : (0 : ℚ) < max 2 ε := lt_of_lt_of_le (by norm_num) (le_max_left _ _)
  rw [eq_div_iff (ne_of_gt hm), one_mul] at heq
  have := le_max_left (2 : ℚ) ε
  rw [heq] at this
  linarith

/-- Claim C2 (amended).  On every well-formed PSD grid, the score map of
`detect` is defined for every target and pairs the sorted targets with
`snr(f) + 0.5 × snr(2f) (when harmonics ≥ 2) + 0.25 × snr(3f) (when
harmonics ≥ 3)`, where the SNR of each harmonic uses its own neighbor noise
band via `calculate_snr` (and a zero or empty noise band yields SNR 0
rather than an epsilon-floored quotient). -/
theorem C2_scores_characterization (cfg : SnrConfig) (harmonics : Nat)
    (targets freqs psd : List ℚ)
    (hlen : freqs.length = psd.length) (h2 : 2 ≤ freqs.length)
    (hres : freqs.getD 0 0 < freqs.getD 1 0) :
    ∃ l, detectScores cfg harmonics targets freqs psd = some l
      ∧ l.map Prod.fst = targets.insertionSort (· ≤ ·)
      ∧ ∀ p ∈ l, ∃ s1 s2 s3,
          calculate_snr cfg freqs psd p.1 = some s1
          ∧ calculate_snr cfg freqs psd (2 * p.1) = some s2
          ∧ calculate_snr cfg freqs psd (3 * p.1) = some s3
          ∧ p.2 = s1 + (if 2 ≤ harmonics then 1 / 2 * s2 else 0)
              + (if 3 ≤ harmonics then 1 / 4 * s3 else 0) := by
  have hsome : ∀ f : ℚ, calculate_snr cfg freqs psd f
      = some ((calculate_snr cfg freqs psd f).getD 0) := by
    intro f
    obtain ⟨v, hv⟩ := calculate_snr_isSome cfg freqs psd f hlen h2 hres
    rw [hv]
    rfl
  refine ⟨(targets.insertionSort (· ≤ ·)).map
      (fun f => (f, (calculate_snr cfg freqs psd f).getD 0
        + (if 2 ≤ harmonics then 1 / 2 * (calculate_snr cfg freqs psd (2 * f)).getD 0 else 0)
        + (if 3 ≤ harmonics then 1 / 4 * (calculate_snr cfg freqs psd (3 * f)).getD 0 else 0))),
    ?_, ?_, ?_⟩
  · exact detectScoresAux_eq_map cfg harmonics freqs psd _ _
      (fun f _ => harmonicScore_eq cfg harmonics freqs psd f _ _ _
        (hsome f) (hsome (2 * f)) (hsome (3 * f)))
  · rw [List.map_map]
    exact List.map_id' _
  · intro p hp
    obtain ⟨f, hf, rfl⟩ := List.mem_map.mp hp
    exact ⟨_, _, _, hsome f, hsome (2 * f), hsome (3 * f), rfl⟩

/-- Witness for C2_scores_characterization at the concrete grid `c2freqs`,
`c2psd` with targets `[10]`. -/
theorem C2_witness :
    c2freqs.length = c2psd.length
    ∧ 2 ≤ c2freqs.length
    ∧ c2freqs.getD 0 0 < c2freqs.getD 1 0
    ∧ ∃ l, detectScores defaultSnrConfig 2 [10] c2freqs c2psd = some l
      ∧ l.map Prod.fst = [10].insertionSort (· ≤ ·)
      ∧ ∀ p ∈ l, ∃ s1 s2 s3,
          calculate_snr defaultSnrConfig c2freqs c2psd p.1 = some s1
          ∧ calculate_snr defaultSnrConfig c2freqs c2psd (2 * p.1) = some s2
          ∧ calculate_snr defaultSnrConfig c2freqs c2psd (3 * p.1) = some s3
          ∧ p.2 = s1 + (if 2 ≤ (2 : Nat) then 1 / 2 * s2 else 0)
              + (if 3 ≤ (2 : Nat) then 1 / 4 * s3 else 0) :=
  ⟨by decide, by decide, by with_unfolding_all decide,
    C2_scores_characterization defaultSnrConfig 2 [10] c2freqs c2psd (by decide) (by decide)
      (by with_unfolding_all decide)⟩

/-! Helper lemmas for maxima, descending sort and clipping. -/

lemma le_foldl_max (a : ℚ) (l : List ℚ) : a ≤ l.foldl max a := by
  induction l generalizing a with
  | nil => exact le_refl a
  | cons x xs ih =>
    rw [List.foldl_cons]
    exact le_trans (le_max_left a x) (ih (max a x))

lemma mem_le_foldl_max (l : List ℚ) : ∀ (a x : ℚ), x ∈ l → x ≤ l.foldl max a := by
  induction l with
  | nil => intro a x hx; cases hx
  | cons y ys ih =>
    intro a x hx
    rw [List.foldl_cons]
    rcases List.mem_cons.mp hx with h | h
    · subst h
      exact le_trans (le_max_right a x) (le_foldl_max _ _)
    · exact ih _ x h

lemma foldl_max_mem (l : List ℚ) : ∀ a : ℚ, l.foldl max a = a ∨ l.foldl max a ∈ l := by
  induction l with
  | nil => intro a; exact Or.inl rfl
  | cons x xs ih =>
    intro a
    rw [List.foldl_cons]
    rcases ih (max a x) with h | h
    · rcases max_choice a x with hm | hm
      · exact Or.inl (by rw [h, hm])
      · right
        rw [h, hm]
        exact List.mem_cons_self _ _
    · exact Or.inr (List.mem_cons_of_mem _ h)

lemma pyMax_mem (l : List ℚ) (h : l ≠ []) : pyMax l ∈ l := by
  cases l with
  | nil => exact absurd rfl h
  | cons x xs =>
    show xs.foldl max x ∈ x :: xs
    rcases foldl_max_mem xs x with h1 | h1
    · rw [h1]
      exact List.mem_cons_self _ _
    · exact List.mem_cons_of_mem _ h1

lemma le_pyMax (l : List ℚ) (x : ℚ) (hx : x ∈ l) : x ≤ pyMax l := by
  cases l with
  | nil => cases hx
  | cons y ys =>
    show x ≤ ys.foldl max y
    rcases List.mem_cons.mp hx with h | h
    · subst h
      exact le_foldl_max _ _
    · exact mem_le_foldl_max ys y x h

lemma sortDescending_perm (l : List ℚ) : List.Perm (sortDescending l) l :=
  List.perm_insertionSort _ l

lemma sortDescending_sorted (l : List ℚ) :
    (sortDescending l).Sorted (fun a b : ℚ => b ≤ a) :=
  List.sorted_insertionSort _ l

lemma sortDescending_head_eq (l : List ℚ) (h : l ≠ []) :
    (sortDescending l).getD 0 0 = pyMax l := by
  obtain ⟨a, t, hs⟩ : ∃ a t, sortDescending l = a :: t := by
    cases hsd : sortDescending l with
    | nil =>
      have hperm := sortDescending_perm l
      rw [hsd] at hperm
      exact absurd hperm.symm.eq_nil h
    | cons a t => exact ⟨a, t, rfl⟩
  have hperm := sortDescending_perm l
  have ha_mem : a ∈ l := hperm.mem_iff.mp (by rw [hs]; exact List.mem_cons_self a t)
  rw [hs]
  show a = pyMax l
  apply le_antisymm (le_pyMax l a ha_mem)
  have hm : pyMax l ∈ a :: t := by
    rw [← hs]
    exact hperm.mem_iff.mpr (pyMax_mem l h)
  rcases List.mem_cons.mp hm with h1 | h1
  · exact h1.le
  · have hsorted := sortDescending_sorted l
    rw [hs] at hsorted
    exact List.rel_of_sorted_cons hsorted _ h1

lemma sortDescending_second_le (l : List ℚ) (h2 : 2 ≤ l.length) :
    (sortDescending l).getD 1 0 ≤ (sortDescending l).getD 0 0 := by
  have hlen : 2 ≤ (sortDescending l).length := by
    rw [(sortDescending_perm l).length_eq]
    exact h2
  cases hsd : sortDescending l with
  | nil => rw [hsd] at hlen; simp at hlen
  | cons a t1 =>
    cases t1 with
    | nil => rw [hsd] at hlen; simp at hlen
    | cons b t =>
      have hsorted := sortDescending_sorted l
      rw [hsd] at hsorted
      show b ≤ a
      exact List.rel_of_sorted_cons hsorted b (List.mem_cons_self b t)

lemma clip01_eq_self {x : ℚ} (h0 : 0 ≤ x) (h1 : x ≤ 1) : clip01 x = x := by
  unfold clip01
  rw [max_eq_right h0, min_eq_right h1]

lemma clip01_nonneg (x : ℚ) : 0 ≤ clip01 x := le_min (by norm_num) (le_max_left 0 x)

lemma clip01_le_one (x : ℚ) : clip01 x ≤ 1 := min_le_left 1 _

/-- Claim C4.  In `PSDDetector.detect`, when there are at least two scores
and the second-largest is strictly positive, the reported confidence is
exactly `1 - second_best / best` (the clip to `[0, 1]` is the identity
there); otherwise it is the clipped saturating function
`1 if best > 1.5 else best / 1.5` of the best score alone; and in all
cases the reported confidence lies in `[0, 1]`. -/
theorem C4_confidence_spec (scores : List ℚ) (hne : scores ≠ []) :
    (2 ≤ scores.length → 0 < (sortDescending scores).getD 1 0 →
      detectConfidence scores = 1 - (sortDescending scores).getD 1 0 / pyMax scores)
    ∧ (¬(2 ≤ scores.length ∧ 0 < (sortDescending scores).getD 1 0) →
      detectConfidence scores
        = clip01 (if 3 / 2 < pyMax scores then 1 else pyMax scores / (3 / 2)))
    ∧ 0 ≤ detectConfidence scores ∧ detectConfidence scores ≤ 1 := by
  refine ⟨fun hlen hpos => ?_, fun hnot => ?_, clip01_nonneg _, clip01_le_one _⟩
  · have hlen2 : 1 < (sortDescending scores).length := by
      rw [(sortDescending_perm scores).length_eq]
      omega
    have hsecle : (sortDescending scores).getD 1 0 ≤ pyMax scores := by
      rw [← sortDescending_head_eq scores hne]
      exact sortDescending_second_le scores hlen
    have hmaxpos : 0 < pyMax scores := lt_of_lt_of_le hpos hsecle
    simp only [detectConfidence]
    rw [if_pos ⟨hlen2, hpos⟩, sortDescending_head_eq scores hne]
    apply clip01_eq_self
    · rw [sub_nonneg]
      exact (div_le_one hmaxpos).mpr hsecle
    · exact sub_le_self 1 (div_nonneg hpos.le hmaxpos.le)
  · have hcond : ¬(1 < (sortDescending scores).length
        ∧ 0 < (sortDescending scores).getD 1 0) := by
      rw [(sortDescending_perm scores).length_eq]
      intro hc
      exact hnot ⟨by omega, hc.2⟩
    simp only [detectConfidence]
    rw [if_neg hcond]

/-- Witness for C4_confidence_spec: both confidence branches and the bounds
at concrete score lists. -/
theorem C4_witness :
    ([3, 1] : List ℚ) ≠ []
    ∧ 2 ≤ ([3, 1] : List ℚ).length
    ∧ 0 < (sortDescending [3, 1]).getD 1 0
    ∧ detectConfidence [3, 1] = 1 - (sortDescending [3, 1]).getD 1 0 / pyMax [3, 1]
    ∧ detectConfidence [1] = clip01 (if 3 / 2 < pyMax [1] then 1 else pyMax [1] / (3 / 2))
    ∧ 0 ≤ detectConfidence [3, 1] ∧ detectConfidence [3, 1] ≤ 1 := by
  have h1 := C4_confidence_spec [3, 1] (by simp)
  have h2 := C4_confidence_spec [1] (by simp)
  exact ⟨by simp, by decide, by with_unfolding_all decide,
    h1.1 (by decide) (by with_unfolding_all decide),
    h2.2.1 (by with_unfolding_all decide),
    h1.2.2.1, h1.2.2.2⟩

/-- Claim C8 (counterexample).  At sampling rate 125 Hz the pair
`(70, 80)` has both cutoffs at or above Nyquist (62.5 Hz); the clamp only
raises `low` to at least 0.01 and lowers `high` to at most 0.99, so the
normalized low cutoff stays at `1.12 ≥ 1` and `butter` raises - the
construction fails rather than proceeding with clamped cutoffs. -/
theorem C8_counterexample : design_bandpass 125 70 80 = none := by
  with_unfolding_all decide

/-- Claim C8 (amended).  For positive `fs`, the bandpass design succeeds
(with the one-sided clamp applied when `low ≤ 0` or `high ≥ 1`) exactly
when `lowcut < nyquist` and `highcut > 0`; outside that region (for
instance when `lowcut ≥ nyquist`) `butter` still raises. -/
theorem C8_ok_iff (fs lowcut highcut : ℚ) (hfs : 0 < fs) :
    (design_bandpass fs lowcut highcut).isSome = true
      ↔ lowcut < fs / 2 ∧ 0 < highcut := by
  have hnyq : 0 < fs / 2 := half_pos hfs
  have h5 : lowcut / (fs / 2) < 1 ↔ lowcut < fs / 2 := div_lt_one hnyq
  have h6 : 0 < highcut / (fs / 2) ↔ 0 < highcut := by
    rw [lt_div_iff hnyq, zero_mul]
  simp only [design_bandpass]
  by_cases hbr : lowcut / (fs / 2) ≤ 0 ∨ 1 ≤ highcut / (fs / 2)
  · rw [if_pos hbr]
    constructor
    · intro h
      split_ifs at h with hc
      · have hm : max (1 / 100 : ℚ) (lowcut / (fs / 2)) < 1 := hc.2.1
        have hmn : 0 < min (99 / 100 : ℚ) (highcut / (fs / 2)) := hc.2.2.1
        exact ⟨h5.mp (max_lt_iff.mp hm).2, h6.mp (lt_min_iff.mp hmn).2⟩
      · simp at h
    · rintro ⟨hl, hh⟩
      rw [if_pos ⟨lt_of_lt_of_le (by norm_num) (le_max_left (1 / 100) _),
        max_lt_iff.mpr ⟨by norm_num, h5.mpr hl⟩,
        lt_min_iff.mpr ⟨by norm_num, h6.mpr hh⟩,
        lt_of_le_of_lt (min_le_left _ _) (by norm_num)⟩]
      rfl
  · rw [if_neg hbr]
    push_neg at hbr
    obtain ⟨hlow, hhigh⟩ := hbr
    constructor
    · intro h
      split_ifs at h with hc
      · exact ⟨h5.mp hc.2.1, h6.mp hc.2.2.1⟩
      · simp at h
    · rintro ⟨hl, hh⟩
      rw [if_pos ⟨hlow, h5.mpr hl, h6.mpr hh, hhigh⟩]
      rfl

/-- Witness for C8_ok_iff: an out-of-range low cutoff is clamped and the
design succeeds. -/
theorem C8_witness : (design_bandpass 125 (-5) 80).isSome = true :=
  (C8_ok_iff 125 (-5) 80 (by norm_num)).mpr ⟨by norm_num, by norm_num⟩

/-! Helper lemmas for the FBCCA combination. -/

lemma foldl_add_eq_sum (g : Nat → ℚ) :
    ∀ (l : List Nat) (a : ℚ), l.foldl (fun acc i => acc + g i) a = a + (l.map g).sum := by
  intro l
  induction l with
  | nil => intro a; simp
  | cons x xs ih =>
    intro a
    rw [List.foldl_cons, ih, List.map_cons, List.sum_cons]
    ring

lemma fbccaCombine_eq_sum (n : Nat) (cca : Nat → ℚ → ℚ) (f : ℚ) :
    fbccaCombine n cca f
      = ((List.range n).map
          (fun (i : Nat) => ((n : ℚ) - (i : ℚ)) / (n : ℚ) * cca i f)).sum := by
  unfold fbccaCombine
  rw [foldl_add_eq_sum (fun (i : Nat) => ((n : ℚ) - (i : ℚ)) / (n : ℚ) * cca i f)
    (List.range n) 0, zero_add]

lemma foldl_max_div (m : ℚ) (hm : 0 < m) :
    ∀ (xs : List ℚ) (a : ℚ),
      (xs.map (fun x => x / m)).foldl max (a / m) = xs.foldl max a / m := by
  have hstep : ∀ a y : ℚ, max (a / m) (y / m) = max a y / m := by
    intro a y
    rcases le_total a y with h | h
    · rw [max_eq_right h, max_eq_right ((div_le_div_right hm).mpr h)]
    · rw [max_eq_left h, max_eq_left ((div_le_div_right hm).mpr h)]
  intro xs
  induction xs with
  | nil => intro a; rfl
  | cons y ys ih =>
    intro a
    rw [List.map_cons, List.foldl_cons, List.foldl_cons, hstep, ih]

lemma pyMax_map_div (l : List ℚ) (m : ℚ) (hm : 0 < m) :
    pyMax (l.map (fun x => x / m)) = pyMax l / m := by
  cases l with
  | nil => simp [pyMax]
  | cons x xs =>
    simp only [pyMax, List.map_cons]
    exact foldl_max_div m hm xs x

lemma map_snd_pair (l : List ℚ) (q : ℚ → ℚ) :
    (l.map (fun f => (f, q f))).map Prod.snd = l.map q := by
  rw [List.map_map]
  rfl

/-- Claim C9 (counterexample).  When every sub-band CCA score is 0 (as
happens when each per-frequency CCA computation takes the exception path),
`max_val` is 0, the normalization is skipped, and the maximum of the
returned scores is 0, not 1. -/
theorem C9_counterexample :
    pyMax ((fbccaFeatures [10, 15] 2 (fun _ _ => 0)).map Prod.snd) ≠ 1 := by
  with_unfolding_all decide

/-- Claim C9 (amended).  With the filter bank enabled and duplicate-free
targets, whenever the maximum combined score is positive the FBCCA feature
for each frequency is the linearly-decreasing weighted sum
`Σ_{i<N} ((N-i)/N) × cca_i(f)` divided by that maximum, and the maximum of
the returned scores is 1; when all combined scores are `≤ 0` the features
are returned unnormalized (see the counterexample). -/
theorem C9_fbcca_normalized (frequencies : List ℚ) (n : Nat) (cca : Nat → ℚ → ℚ)
    (hnodup : frequencies.Nodup)
    (hpos : 0 < pyMax (frequencies.map (fbccaCombine n cca))) :
    fbccaFeatures frequencies n cca
      = frequencies.map (fun f => (f,
          ((List.range n).map
            (fun (i : Nat) => ((n : ℚ) - (i : ℚ)) / (n : ℚ) * cca i f)).sum
            / pyMax (frequencies.map (fbccaCombine n cca))))
    ∧ pyMax ((fbccaFeatures frequencies n cca).map Prod.snd) = 1 := by
  have hne : frequencies ≠ [] := by
    intro h
    rw [h] at hpos
    simp [pyMax] at hpos
  have hmapne : frequencies.map (fun f => (f, fbccaCombine n cca f)) ≠ [] := by
    intro h
    exact hne (List.map_eq_nil.mp h)
  have hsnd : (frequencies.map (fun f => (f, fbccaCombine n cca f))).map Prod.snd
      = frequencies.map (fbccaCombine n cca) :=
    map_snd_pair frequencies (fbccaCombine n cca)
  have h1 : fbccaFeatures frequencies n cca
      = frequencies.map (fun f => (f,
          fbccaCombine n cca f / pyMax (frequencies.map (fbccaCombine n cca)))) := by
    simp only [fbccaFeatures]
    rw [if_neg hmapne, hsnd, if_pos hpos, List.map_map]
    rfl
  refine ⟨?_, ?_⟩
  · rw [h1]
    exact congrArg (fun F => List.map F frequencies)
      (funext fun f => by rw [fbccaCombine_eq_sum])
  · rw [h1, map_snd_pair frequencies
      (fun f => fbccaCombine n cca f / pyMax (frequencies.map (fbccaCombine n cca)))]
    have hcomp : frequencies.map
        (fun f => fbccaCombine n cca f / pyMax (frequencies.map (fbccaCombine n cca)))
        = (frequencies.map (fbccaCombine n cca)).map
            (fun x => x / pyMax (frequencies.map (fbccaCombine n cca))) := by
      rw [List.map_map]
      rfl
    rw [hcomp, pyMax_map_div _ _ hpos, div_self (ne_of_gt hpos)]

/-- Witness for C9_fbcca_normalized at two targets and two sub-bands with
positive combined scores. -/
theorem C9_witness :
    ([10, 15] : List ℚ).Nodup
    ∧ 0 < pyMax (([10, 15] : List ℚ).map
        (fbccaCombine 2 (fun _ f => if f = 10 then (1 : ℚ) else 1 / 2)))
    ∧ pyMax ((fbccaFeatures [10, 15] 2
        (fun _ f => if f = 10 then (1 : ℚ) else 1 / 2)).map Prod.snd) = 1 := by
  have h := C9_fbcca_normalized [10, 15] 2 (fun _ f => if f = 10 then (1 : ℚ) else 1 / 2)
    (by with_unfolding_all decide) (by with_unfolding_all decide)
  exact ⟨by with_unfolding_all decide, by with_unfolding_all decide, h.2⟩
